import Mathlib

set_option maxHeartbeats 1000000

/-!
Shallow embedding of the gochef/chef HTTP router core: the compressed-trie
data structure (node kinds, insertion with node splitting, lookup with
backtracking and parameter binding) and the request dispatch context
(handler chain storage, parameter slots, sequential handler invocation).

Paths are modelled as lists of characters (Go strings are byte slices and
all router paths are ASCII).  Go nil slices are modelled as `Option`
where the source distinguishes nil from a set value (handler tables), and
as `[]` where it does not (children, pnames).  Go slice-index panics are
modelled as an explicit `panik` outcome.  The lookup loop in the source is
unbounded, so its functional model takes a fuel argument; insertion is
structurally recursive on the tree and needs no fuel.
-/

namespace Chef

/-- Handlers are opaque callables in the source; we model them as tagged
values so distinct registered handlers stay distinguishable.  The first two
constructors mirror the router's NotFoundHandler and MethodNotAllowedHandler. -/
inductive Handler where
  | notFound
  | methodNotAllowed
  | user (n : Nat)
deriving DecidableEq

/-- A handler chain, Go []Handler. -/
abbrev Chain := List Handler

/-- A path (Go string), as a list of characters. -/
abbrev RPath := List Char

/-- The zero byte, Go's zero value for a node label. -/
def nulChar : Char := Char.ofNat 0

/-- Node kinds: static, parameter, catch-all (skind, pkind, akind). -/
inductive Kind where
  | skind
  | pkind
  | akind
deriving DecidableEq

/-- The per-node handler table (struct methodHandler): one nil-able handler
chain per known HTTP method. -/
structure MethodHandler where
  connect : Option Chain
  delete : Option Chain
  get : Option Chain
  head : Option Chain
  options : Option Chain
  patch : Option Chain
  post : Option Chain
  put : Option Chain
  trace : Option Chain
deriving DecidableEq

/-- The empty handler table (new(methodHandler)). -/
def mh0 : MethodHandler :=
  ⟨none, none, none, none, none, none, none, none, none⟩

/-- The known HTTP method tokens, in the order of the source's methods array. -/
def methodsList : List String :=
  ["CONNECT", "DELETE", "GET", "HEAD", "OPTIONS", "PATCH", "POST", "PUT", "TRACE"]

/-- node.addHandler: store a chain under a method; unknown methods are
silently ignored (the switch has no default case). -/
def mhAdd (method : String) (h : Option Chain) (mh : MethodHandler) : MethodHandler :=
  if method = "GET" then { mh with get := h }
  else if method = "POST" then { mh with post := h }
  else if method = "PUT" then { mh with put := h }
  else if method = "DELETE" then { mh with delete := h }
  else if method = "PATCH" then { mh with patch := h }
  else if method = "OPTIONS" then { mh with options := h }
  else if method = "HEAD" then { mh with head := h }
  else if method = "CONNECT" then { mh with connect := h }
  else if method = "TRACE" then { mh with trace := h }
  else mh

/-- node.findHandler: look up the chain for a method; unknown methods
yield nil. -/
def mhFind (method : String) (mh : MethodHandler) : Option Chain :=
  if method = "GET" then mh.get
  else if method = "POST" then mh.post
  else if method = "PUT" then mh.put
  else if method = "DELETE" then mh.delete
  else if method = "PATCH" then mh.patch
  else if method = "OPTIONS" then mh.options
  else if method = "HEAD" then mh.head
  else if method = "CONNECT" then mh.connect
  else if method = "TRACE" then mh.trace
  else none

/-- A trie node (struct node): kind, label byte, prefix, children,
pristine registration path, parameter names, handler table.  The parent
pointer of the source is not stored; lookup reconstructs it from the
ancestor stack it carries. -/
inductive Node where
  | mk : Kind → Char → RPath → List Node → RPath → List RPath → MethodHandler → Node

def nodeKind : Node → Kind
  | .mk k _ _ _ _ _ _ => k

def nodeLabel : Node → Char
  | .mk _ l _ _ _ _ _ => l

def nodePref : Node → RPath
  | .mk _ _ p _ _ _ _ => p

def nodeChildren : Node → List Node
  | .mk _ _ _ c _ _ _ => c

def nodePpath : Node → RPath
  | .mk _ _ _ _ pp _ _ => pp

def nodePnames : Node → List RPath
  | .mk _ _ _ _ _ pn _ => pn

def nodeMh : Node → MethodHandler
  | .mk _ _ _ _ _ _ mh => mh

/-- node.findChild: first child with the given label and kind. -/
def findChild (cs : List Node) (l : Char) (t : Kind) : Option Node :=
  cs.find? fun c => nodeLabel c == l && nodeKind c == t

/-- node.findChildWithLabel: first child with the given label, any kind. -/
def findChildWithLabel (cs : List Node) (l : Char) : Option Node :=
  cs.find? fun c => nodeLabel c == l

/-- node.findChildByKind: first child of the given kind. -/
def findChildByKind (cs : List Node) (t : Kind) : Option Node :=
  cs.find? fun c => nodeKind c == t

/-- node.checkMethodNotAllowed: if any known method has a chain at this
node, resolve to the method-not-allowed chain, otherwise to not-found. -/
def checkMethodNotAllowed (n : Node) : Chain :=
  if methodsList.any fun m => (mhFind m (nodeMh n)).isSome then
    [Handler.methodNotAllowed]
  else
    [Handler.notFound]

/-- Longest common prefix length of two paths (the LCP loop in insert and
find). -/
def lcp : RPath → RPath → Nat
  | a :: as, b :: bs => if a = b then lcp as bs + 1 else 0
  | _, _ => 0

mutual

/-- node.insert: walk from this node, computing the LCP of the remaining
search path with the node prefix; adopt the path at an uninitialized root,
split the node when the LCP is shorter than the prefix, descend into the
child matching the first remaining byte, append a fresh leaf, or overwrite
the handler entry when the node already exists.  The pointer-walking loop
of the source becomes recursion into the matched child. -/
def nodeInsert (method : String) (h : Option Chain) (t : Kind) (pp : RPath)
    (pn : List RPath) (n : Node) (search : RPath) : Node :=
  match n with
  | .mk k lb pref children nppath npnames mh =>
    let sl := search.length
    let pl := pref.length
    let l := lcp search pref
    if l = 0 then
      -- at root: adopt the whole search path
      if h.isSome then
        .mk t (search.headD nulChar) search children pp pn (mhAdd method h mh)
      else
        .mk k (search.headD nulChar) search children nppath npnames mh
    else if l < pl then
      -- split node: the suffix of the old prefix moves into a child that
      -- inherits children, handler table and registration data
      let inherited : Node :=
        .mk k ((pref.drop l).headD nulChar) (pref.drop l) children nppath npnames mh
      if l = sl then
        .mk t (pref.headD nulChar) (pref.take l) [inherited] pp pn (mhAdd method h mh0)
      else
        let leaf : Node :=
          .mk t ((search.drop l).headD nulChar) (search.drop l) [] pp pn (mhAdd method h mh0)
        .mk .skind (pref.headD nulChar) (pref.take l) [inherited, leaf] [] [] mh0
    else if l < sl then
      let search2 := search.drop l
      if children.any fun c => nodeLabel c == search2.headD nulChar then
        -- go deeper into the child with the matching label
        .mk k lb pref (insertChildren method h t pp pn children search2) nppath npnames mh
      else
        -- create a fresh leaf child
        let leaf : Node :=
          .mk t (search2.headD nulChar) search2 [] pp pn (mhAdd method h mh0)
        .mk k lb pref (children ++ [leaf]) nppath npnames mh
    else
      -- node already exists: overwrite the handler entry; parameter names
      -- are adopted only when none were bound before
      if h.isSome then
        .mk k lb pref children pp (if npnames.length = 0 then pn else npnames)
          (mhAdd method h mh)
      else
        .mk k lb pref children nppath npnames mh

/-- Replace the first child whose label matches the head of the remaining
search path by the result of inserting into it. -/
def insertChildren (method : String) (h : Option Chain) (t : Kind) (pp : RPath)
    (pn : List RPath) (cs : List Node) (search2 : RPath) : List Node :=
  match cs with
  | [] => []
  | c :: rest =>
    if nodeLabel c == search2.headD nulChar then
      nodeInsert method h t pp pn c search2 :: rest
    else
      c :: insertChildren method h t pp pn rest search2

end

/-- The router (struct Router): the trie root, the maximum parameter count
reserved for context parameter-value storage, and the application-wide
middleware and after-handler lists used by Router.add.  The sync.Pool,
routes map and config of the source carry no resolution logic and are not
modelled. -/
structure Router where
  tree : Node
  maxParam : Nat
  middlewares : Chain
  after : Chain

/-- NewRouter: an uninitialized root node and maxParam = 0. -/
def emptyRouter : Router :=
  { tree := .mk .skind nulChar [] [] [] [] mh0
    maxParam := 0
    middlewares := []
    after := [] }

/-- Modelled from the spec: the method Router.insert is absent from the
sources (Router.add calls r.insert, but only node.insert is present).  Per
the spec, registration with an unknown method token is a fatal error
("method tokens must be one of the known HTTP verbs", halting startup,
modelled as none), and the parameter-value storage capacity is fixed at
trie-build completion to the maximum parameter-name count over all routes,
so the wrapper raises maxParam before delegating to node.insert from the
source. -/
def routerInsert (r : Router) (method : String) (search : RPath) (h : Option Chain)
    (t : Kind) (pp : RPath) (pn : List RPath) : Option Router :=
  if method ∈ methodsList then
    some { r with
            maxParam := max r.maxParam pn.length
            tree := nodeInsert method h t pp pn r.tree search }
  else
    none

/-- The body of Router.add's scan over the path pattern: done is the
already-scanned (and rewritten) portion of the path, rest the remainder.
A ':' inserts the preceding static prefix, collapses the parameter name to
the single ':' byte and records the name; a '*' inserts the preceding
static prefix and then the catch-all node, ending the scan; any other byte
is skipped.  After the scan the whole rewritten path is inserted with the
handler chain.  none models the fatal registration error (panic).  The
scan consumes at least one byte of rest per iteration, so the fuel
argument never runs out when it starts at the length of rest (proved
below); it only keeps the recursion structural. -/
def addLoop (method : String) (chain : Chain) (pp : RPath) :
    Nat → Router → List Char → List Char → List RPath → Option Router
  | fuel, r, done, rest, pnames =>
    match rest with
    | [] => routerInsert r method done (some chain) .skind pp pnames
    | c :: rs =>
      match fuel with
      | 0 => none
      | fuel + 1 =>
        if c = ':' then
          match routerInsert r method done none .skind [] [] with
          | none => none
          | some r1 =>
            let name := rs.takeWhile fun ch => ch != '/'
            let rest2 := rs.dropWhile fun ch => ch != '/'
            let pnames2 := pnames ++ [name]
            if rest2 = [] then
              routerInsert r1 method (done ++ [':']) (some chain) .pkind pp pnames2
            else
              match routerInsert r1 method (done ++ [':']) none .pkind pp pnames2 with
              | none => none
              | some r2 => addLoop method chain pp fuel r2 (done ++ [':']) rest2 pnames2
        else if c = '*' then
          match routerInsert r method done none .skind [] [] with
          | none => none
          | some r1 =>
            routerInsert r1 method (done ++ ['*']) (some chain) .akind pp
              (pnames ++ [['*']])
        else
          addLoop method chain pp fuel r (done ++ [c]) rs pnames

/-- Router.add: reject the empty path (panic, modelled as none), prepend a
leading slash when missing, build the handler chain as router middlewares,
route-level middlewares, the handler, then the after-handlers, and scan the
pattern. -/
def routerAdd (r : Router) (method : String) (path : RPath) (h : Handler)
    (hs : Chain) : Option Router :=
  if path = [] then none
  else
    let path2 := if path.headD nulChar = '/' then path else '/' :: path
    let chain := r.middlewares ++ hs ++ [h] ++ r.after
    addLoop method chain path2 path2.length r [] path2 []

/-- The request dispatch context (struct context): the fields find and the
dispatch loop touch.  params is the by-name parameter map read by
context.Param; nextIndex is the Go int cursor starting at the -1 sentinel.
Transport-facing fields (request, response, session, cache, data) carry no
router logic and are not modelled. -/
structure Ctx where
  path : RPath
  pnames : List RPath
  pvalues : List RPath
  handlers : Option Chain
  params : List (RPath × RPath)
  nextIndex : Int
deriving DecidableEq

/-- NewContext: parameter-value storage sized to maxParam (zero values),
an empty params map, and Go zero values elsewhere. -/
def newCtx (maxParam : Nat) : Ctx :=
  { path := []
    pnames := []
    pvalues := List.replicate maxParam []
    handlers := none
    params := []
    nextIndex := 0 }

/-- context.reset: cursor back to the -1 sentinel, handlers to the single
default not-found chain, path and pnames cleared; pvalues keep their prior
contents (slots are overwritten positionally by the next find). -/
def resetCtx (c : Ctx) : Ctx :=
  { c with
      nextIndex := -1
      path := []
      pnames := []
      handlers := some [Handler.notFound] }

/-- Go map read with the zero-value default: context.Param. -/
def lookupParam : List (RPath × RPath) → RPath → RPath
  | [], _ => []
  | (k, v) :: rest, key => if k = key then v else lookupParam rest key

/-- context.Param: read a bound parameter by name from the params map. -/
def ctxParam (c : Ctx) (key : RPath) : RPath :=
  lookupParam c.params key

/-- Write position i of the parameter-value slots; none models the Go
slice-bounds panic. -/
def setAt (l : List RPath) (i : Nat) (v : RPath) : Option (List RPath) :=
  if i < l.length then some (l.set i v) else none

/-- A node together with the stack of its ancestors (nearest first): the
functional stand-in for the source's parent pointers during find. -/
structure Loc where
  node : Node
  anc : List Node

/-- The mutable locals of node.find: current node n (none models the nil
pointer), remaining search string, the param counter nc, and the saved
backtracking alternative (nk, nn, ns), plus the context's parameter-value
slice the loop writes through. -/
structure FS where
  n : Option Loc
  search : RPath
  nc : Nat
  nk : Kind
  nn : Option Loc
  ns : RPath
  pvalues : List RPath

/-- The program points of node.find's goto structure: the loop head, the
Param label and the Any label. -/
inductive Phase where
  | top
  | param
  | any

/-- How one iteration of the find loop ends: continue at a program point,
return with a match (the End block ran), return not-found (handlers left
untouched), or a slice-bounds / nil-pointer panic. -/
inductive FindOut where
  | fin (c : Ctx)
  | notFound (pv : List RPath)
  | panik

inductive StepRes where
  | cont (ph : Phase) (s : FS)
  | stop (o : FindOut)

/-- The End block of node.find: install the chain for the method from the
matched node; when there is none, install the method-not-allowed /
not-found chain from the node's table, then dig one level into a catch-all
child, preferring its chain for the method (or its table's
method-not-allowed resolution) and blanking that route's last parameter
slot. -/
def endPhase (method : String) (c1 : Ctx) (n : Node) (pv : List RPath) : FindOut :=
  let h0 := mhFind method (nodeMh n)
  if h0.isSome then
    .fin { c1 with handlers := h0, path := nodePpath n, pnames := nodePnames n, pvalues := pv }
  else
    let h1 := some (checkMethodNotAllowed n)
    match findChildByKind (nodeChildren n) .akind with
    | none =>
      .fin { c1 with handlers := h1, path := nodePpath n, pnames := nodePnames n, pvalues := pv }
    | some c =>
      let h2 :=
        match mhFind method (nodeMh c) with
        | some hh => some hh
        | none => some (checkMethodNotAllowed c)
      if (nodePnames c).length = 0 then
        .panik
      else
        match setAt pv ((nodePnames c).length - 1) [] with
        | some pv2 =>
          .fin { c1 with handlers := h2, path := nodePpath c, pnames := nodePnames c,
                         pvalues := pv2 }
        | none => .panik

/-- One iteration of node.find from a program point: the loop head computes
the LCP with the current prefix and either consumes it, backtracks to the
saved alternative, or returns; the static-child section saves a parameter
alternative at a slash boundary and descends; the Param label binds one
segment into the next free slot unless the slots are exhausted; the Any
label consumes the whole remainder at a catch-all child or unwinds through
the saved node's parent. -/
def step (method : String) (c1 : Ctx) (ph : Phase) (s : FS) : StepRes :=
  match ph with
  | .top =>
    match s.n with
    | none => .stop .panik
    | some loc =>
      let n := loc.node
      if s.search = [] then
        .stop (endPhase method c1 n s.pvalues)
      else
        let pl := if nodeLabel n = ':' then 0 else (nodePref n).length
        let l := if nodeLabel n = ':' then 0 else lcp s.search (nodePref n)
        if l = pl then
          let search2 := s.search.drop l
          if search2 = [] then
            .stop (endPhase method c1 n s.pvalues)
          else
            match findChild (nodeChildren n) (search2.headD nulChar) .skind with
            | some child =>
              match (nodePref n).getLast? with
              | none => .stop .panik
              | some lastc =>
                if lastc = '/' then
                  .cont .top { s with n := some ⟨child, n :: loc.anc⟩, search := search2,
                                      nk := .pkind, nn := some loc, ns := search2 }
                else
                  .cont .top { s with n := some ⟨child, n :: loc.anc⟩, search := search2 }
            | none => .cont .param { s with search := search2 }
        else
          match s.nk with
          | .pkind => .cont .param { s with n := s.nn, search := s.ns }
          | .akind => .cont .any { s with n := s.nn, search := s.ns }
          | .skind => .stop (.notFound s.pvalues)
  | .param =>
    match s.n with
    | none => .stop .panik
    | some loc =>
      let n := loc.node
      match findChildByKind (nodeChildren n) .pkind with
      | some child =>
        if s.pvalues.length = s.nc then
          .cont .top s
        else
          match (nodePref n).getLast? with
          | none => .stop .panik
          | some lastc =>
            let s1 :=
              if lastc = '/' then { s with nk := .akind, nn := some loc, ns := s.search }
              else s
            let value := s.search.takeWhile fun ch => ch != '/'
            let rest := s.search.dropWhile fun ch => ch != '/'
            match setAt s1.pvalues s1.nc value with
            | some pv =>
              .cont .top { s1 with n := some ⟨child, n :: loc.anc⟩, nc := s1.nc + 1,
                                   search := rest, pvalues := pv }
            | none => .stop .panik
      | none => .cont .any s
  | .any =>
    match s.n with
    | none => .stop .panik
    | some loc =>
      let n := loc.node
      match findChildByKind (nodeChildren n) .akind with
      | none =>
        match s.nn with
        | some nnloc =>
          let parentLoc : Option Loc :=
            match nnloc.anc with
            | [] => none
            | p :: ps => some ⟨p, ps⟩
          match s.nk with
          | .pkind => .cont .param { s with n := some nnloc, nn := parentLoc, search := s.ns }
          | .akind => .cont .any { s with n := some nnloc, nn := parentLoc, search := s.ns }
          | .skind => .stop (.notFound s.pvalues)
        | none => .stop (.notFound s.pvalues)
      | some child =>
        -- first write, guarded only by a non-empty value slice (the stray
        -- diagnostic print of the source is a no-op here)
        let step1 : Option (List RPath) :=
          if s.pvalues.length = 0 then some s.pvalues
          else if (nodePnames child).length = 0 then none
          else setAt s.pvalues ((nodePnames child).length - 1) s.search
        match step1 with
        | none => .stop .panik
        | some pv1 =>
          -- second, duplicated write, guarded by an exact length match
          if pv1.length = (nodePnames child).length then
            if (nodePnames child).length = 0 then .stop .panik
            else
              match setAt pv1 ((nodePnames child).length - 1) s.search with
              | some pv2 => .stop (endPhase method c1 child pv2)
              | none => .stop .panik
          else
            .stop (endPhase method c1 child pv1)

/-- Run the find loop for at most fuel iterations (the source loop is
unbounded; see the non-termination result below). -/
def findLoop (method : String) (c1 : Ctx) : Nat → Phase → FS → Option FindOut
  | 0, _, _ => none
  | fuel + 1, ph, s =>
    match step method c1 ph s with
    | .cont ph2 s2 => findLoop method c1 fuel ph2 s2
    | .stop o => some o

/-- How node.find leaves the context: either the final context of a
successful run (matched or defaulted chain installed), or a panic. -/
inductive RunRes where
  | ok (c : Ctx)
  | panik
deriving DecidableEq

/-- node.find: record the request path in the context, run the search loop
from the root with the context's parameter-value slice, and either leave
the reset-installed chain in place on a miss (parameter slots keep any
values written before the dead end) or return the End block's context. -/
def runFind (fuel : Nat) (method : String) (root : Node) (path : RPath)
    (c : Ctx) : Option RunRes :=
  let c1 := { c with path := path }
  match findLoop method c1 fuel .top
      { n := some ⟨root, []⟩, search := path, nc := 0, nk := .skind,
        nn := none, ns := [], pvalues := c.pvalues } with
  | none => none
  | some (.fin c2) => some (.ok c2)
  | some (.notFound pv) => some (.ok { c1 with pvalues := pv })
  | some .panik => some .panik

/-- Router.ServeHTTP's resolution path: acquire a context sized to the
router's maxParam, reset it, and resolve method and path through the trie
(50 loop iterations of fuel, ample for every bounded trace considered
here). -/
def serveR (r : Router) (method : String) (path : RPath) : Option RunRes :=
  runFind 50 method r.tree path (resetCtx (newCtx r.maxParam))

/-- context.Next: advance the cursor and, while it indexes a valid position
of the handler chain, report the handler invoked at the new cursor. -/
def ctxNext (c : Ctx) : Ctx × Option Handler :=
  let ni := c.nextIndex + 1
  let hsl := c.handlers.getD []
  let invoked :=
    if 0 < hsl.length ∧ ni < (hsl.length : Int) then hsl.get? ni.toNat else none
  ({ c with nextIndex := ni }, invoked)

/-- The handlers reported by k successive context.Next calls. -/
def collectNext : Nat → Ctx → List (Option Handler)
  | 0, _ => []
  | k + 1, c =>
    let p := ctxNext c
    p.2 :: collectNext k p.1

/-- A handler table holding a single GET chain. -/
def mhG (c : Chain) : MethodHandler :=
  ⟨none, none, some c, none, none, none, none, none, none⟩

/-- The trie produced by registering GET /ab then GET /ac: a shared branch
node with prefix "a" (here together with the root slash) and two children
with prefixes "b" and "c". -/
def c1tree (u1 u2 : Handler) : Node :=
  .mk .skind '/' "/a".toList
    [.mk .skind 'b' "b".toList [] "/ab".toList [] (mhG [u1]),
     .mk .skind 'c' "c".toList [] "/ac".toList [] (mhG [u2])]
    [] [] mh0

/-- The context produced by resolving GET /users/42 against the route
GET /users/:id registered with handler user 1. -/
def c3ctx : Ctx :=
  ⟨"/users/:id".toList, ["id".toList], ["42".toList], some [Handler.user 1], [], -1⟩

/-- The router produced by registering POST /x/ (user 1) and then
GET /x/* (user 2): the root node holds the POST entry and a catch-all
child holds the GET entry. -/
def c6router : Router :=
  { tree :=
      .mk .skind '/' "/x/".toList
        [.mk .akind '*' ['*'] [] "/x/*".toList [['*']] (mhG [Handler.user 2])]
        "/x/".toList []
        ⟨none, none, none, none, none, none, some [Handler.user 1], none, none⟩
    maxParam := 1
    middlewares := []
    after := [] }

/-- The context serveR produces for GET /x/ against c6router. -/
def c6ctx : Ctx :=
  ⟨"/x/*".toList, ["*".toList], [[]], some [Handler.user 2], [], -1⟩

/-- A node whose table carries only a POST entry: a concrete input for the
amended method-not-allowed resolution property. -/
def c6wnode : Node :=
  .mk .skind '/' ['/'] [] ['/'] []
    ⟨none, none, none, none, none, none, some [Handler.user 9], none, none⟩

/-- The trie produced by registering GET /ab:x/t (user 1) and then
GET /:y (user 2): the root slash node branches into the static "ab" chain
(with an in-segment parameter node) and a root-level parameter node. -/
def c7tree : Node :=
  .mk .skind '/' ['/']
    [.mk .skind 'a' "ab".toList
       [.mk .pkind ':' [':']
          [.mk .skind '/' "/t".toList [] "/ab:x/t".toList ["x".toList]
             (mhG [Handler.user 1])]
          "/ab:x/t".toList ["x".toList] mh0]
       [] [] mh0,
     .mk .pkind ':' [':'] [] "/:y".toList ["y".toList] (mhG [Handler.user 2])]
    [] [] mh0

/-- The router holding c7tree with one reserved parameter slot. -/
def c7router : Router :=
  { tree := c7tree, maxParam := 1, middlewares := [], after := [] }

/-- The context entering the non-terminating lookup of GET /abQ/z. -/
def c7ctx : Ctx :=
  { resetCtx (newCtx 1) with path := "/abQ/z".toList }

/-- The initial state of the find loop for GET /abQ/z against c7tree. -/
def c7start : FS :=
  { n := some ⟨c7tree, []⟩, search := "/abQ/z".toList, nc := 0, nk := .skind,
    nn := none, ns := [], pvalues := [[]] }

/-- The state the find loop for GET /abQ/z revisits forever: the exhausted
parameter counter makes the Param label fall back to the loop head, whose
prefix mismatch backtracks straight into the Param label again. -/
def c7cyc : FS :=
  { n := some ⟨c7tree, []⟩, search := "abQ/z".toList, nc := 1, nk := .pkind,
    nn := some ⟨c7tree, []⟩, ns := "abQ/z".toList, pvalues := ["Q".toList] }

/-- One step from the Param label in the cyclic state returns to the loop
head without any change: the parameter child exists but the value slots are
exhausted. -/
theorem c7cyc1 : step "GET" c7ctx .param c7cyc = .cont .top c7cyc := rfl

/-- One step from the loop head in the cyclic state goes back to the Param
label without any change: the prefix mismatch restores the saved parameter
alternative, which is the very same state. -/
theorem c7cyc2 : step "GET" c7ctx .top c7cyc = .cont .param c7cyc := rfl

/-- From the cyclic state the find loop exhausts any amount of fuel. -/
theorem c7cycNone (f : Nat) :
    findLoop "GET" c7ctx f .param c7cyc = none ∧
      findLoop "GET" c7ctx f .top c7cyc = none := by
  induction f with
  | zero => exact ⟨rfl, rfl⟩
  | succ f ih =>
    constructor
    · show (match step "GET" c7ctx .param c7cyc with
            | .cont ph2 s2 => findLoop "GET" c7ctx f ph2 s2
            | .stop o => some o) = none
      rw [c7cyc1]
      exact ih.2
    · show (match step "GET" c7ctx .top c7cyc with
            | .cont ph2 s2 => findLoop "GET" c7ctx f ph2 s2
            | .stop o => some o) = none
      rw [c7cyc2]
      exact ih.1

/-- Fuel monotonicity: a result reached within some fuel is reached with
one more unit of fuel. -/
theorem findLoop_mono (method : String) (c1 : Ctx) :
    ∀ f ph s o, findLoop method c1 f ph s = some o →
      findLoop method c1 (f + 1) ph s = some o := by
  intro f
  induction f with
  | zero =>
    intro ph s o h
    simp [findLoop] at h
  | succ f ih =>
    intro ph s o h
    rw [findLoop] at h ⊢
    cases hs : step method c1 ph s with
    | cont ph2 s2 =>
      rw [hs] at h
      exact ih ph2 s2 o h
    | stop r =>
      rw [hs] at h
      exact h

/-- Fuel monotonicity, for any larger fuel. -/
theorem findLoop_mono_le (method : String) (c1 : Ctx) (f g : Nat) (hfg : f ≤ g)
    (ph : Phase) (s : FS) (o : FindOut) (h : findLoop method c1 f ph s = some o) :
    findLoop method c1 g ph s = some o := by
  induction hfg with
  | refl => exact h
  | step _ ih => exact findLoop_mono method c1 _ _ _ _ ih

/-- Five loop iterations take the initial state of GET /abQ/z to the cyclic
state, whatever fuel remains. -/
theorem c7reach (f : Nat) :
    findLoop "GET" c7ctx (f + 5) .top c7start = findLoop "GET" c7ctx f .param c7cyc := rfl

/-- Dropping a parameter segment never lengthens the remaining path. -/
theorem dropWhileSlashLen (l : List Char) :
    (l.dropWhile fun ch => ch != '/').length ≤ l.length := by
  induction l with
  | nil => simp
  | cons a as ih =>
    rw [List.dropWhile_cons]
    split
    · exact Nat.le_succ_of_le ih
    · exact Nat.le_refl _

/-- With a known method, the registration scan succeeds whenever its fuel
covers the remaining pattern (every iteration consumes at least one byte). -/
theorem addLoop_some (m : String) (hm : m ∈ methodsList) (chain : Chain) (pp : RPath) :
    ∀ (fuel : Nat) (rest : List Char), rest.length ≤ fuel →
      ∀ (r : Router) (done : List Char) (pn : List RPath),
        (addLoop m chain pp fuel r done rest pn).isSome := by
  intro fuel
  induction fuel with
  | zero =>
    intro rest hr r done pn
    cases rest with
    | nil => simp [addLoop, routerInsert, hm]
    | cons c rs => simp at hr
  | succ f ih =>
    intro rest hr r done pn
    cases rest with
    | nil => simp [addLoop, routerInsert, hm]
    | cons c rs =>
      simp only [addLoop]
      by_cases hc : c = ':'
      · simp only [if_pos hc]
        simp only [routerInsert, if_pos hm]
        split
        · simp [routerInsert, hm]
        · apply ih
          have h1 := dropWhileSlashLen rs
          simp only [List.length_cons] at hr
          omega
      · by_cases hstar : c = '*'
        · simp only [if_neg hc, if_pos hstar]
          simp [routerInsert, hm]
        · simp only [if_neg hc, if_neg hstar]
          apply ih
          simp only [List.length_cons] at hr
          omega

/-- With an unknown method, the registration scan fails at its first
insertion, whatever the pattern. -/
theorem addLoop_none (m : String) (hm : m ∉ methodsList) (chain : Chain) (pp : RPath) :
    ∀ (fuel : Nat) (rest : List Char) (r : Router) (done : List Char) (pn : List RPath),
      addLoop m chain pp fuel r done rest pn = none := by
  intro fuel
  induction fuel with
  | zero =>
    intro rest r done pn
    cases rest with
    | nil => simp [addLoop, routerInsert, hm]
    | cons c rs => simp [addLoop]
  | succ f ih =>
    intro rest r done pn
    cases rest with
    | nil => simp [addLoop, routerInsert, hm]
    | cons c rs =>
      simp only [addLoop]
      by_cases hc : c = ':'
      · simp [if_pos hc, routerInsert, hm]
      · by_cases hstar : c = '*'
        · simp [if_neg hc, if_pos hstar, routerInsert, hm]
        · simp only [if_neg hc, if_neg hstar]
          exact ih rs r (done ++ [c]) pn

/-- The element just after a list prefix. -/
theorem getAppendCons (pre post : Chain) (h : Handler) :
    (pre ++ h :: post).get? pre.length = some h := by
  induction pre with
  | nil => rfl
  | cons a as ih => simpa using ih

/-- Successive context.Next calls starting with the cursor just before the
end of pre walk the post part of the chain in order. -/
theorem collectNext_spec (post : Chain) :
    ∀ (pre : Chain) (pth : RPath) (pn pv : List RPath) (pars : List (RPath × RPath)),
      collectNext post.length
          ⟨pth, pn, pv, some (pre ++ post), pars, (pre.length : Int) - 1⟩ =
        post.map some := by
  induction post with
  | nil => intro pre pth pn pv pars; rfl
  | cons h t ih =>
    intro pre pth pn pv pars
    have hcond : 0 < ((pre ++ h :: t).length) ∧
        (((pre.length : Int) - 1) + 1) < (((pre ++ h :: t).length : Nat) : Int) := by
      constructor
      · simp
      · have he : ((pre.length : Int) - 1) + 1 = (pre.length : Int) := by omega
        rw [he]
        have hl : (pre ++ h :: t).length = pre.length + (t.length + 1) := by simp
        rw [hl]
        push_cast
        omega
    have hni : ((pre.length : Int) - 1) + 1 = ((pre.length : Nat) : Int) := by omega
    show (ctxNext _).2 :: collectNext t.length (ctxNext _).1 = some h :: t.map some
    have hstep : ctxNext ⟨pth, pn, pv, some (pre ++ h :: t), pars, (pre.length : Int) - 1⟩ =
        (⟨pth, pn, pv, some (pre ++ h :: t), pars, (pre.length : Int)⟩, some h) := by
      simp only [ctxNext, Option.getD]
      rw [if_pos hcond]
      rw [hni, Int.toNat_natCast, getAppendCons pre t h]
    rw [hstep]
    have hre : ((pre.length : Nat) : Int) = (((pre ++ [h]).length : Nat) : Int) - 1 := by
      simp
    have hih := ih (pre ++ [h]) pth pn pv pars
    rw [List.append_assoc] at hih
    simp only [List.singleton_append] at hih
    rw [hre]
    rw [hih]

/-- C1: for the registered (method, exact literal path) pairs GET /ab and
GET /ac — registrations that share a prefix and force a node split — the
trie is the split structure with shared branch prefix "a" and children "b"
and "c", and resolving each path populates the context with exactly its
registered chain and binds zero parameters. -/
theorem c1_literal_paths_and_split (u1 u2 : Handler) :
    (routerAdd emptyRouter "GET" "/ab".toList u1 []).bind
        (fun r => routerAdd r "GET" "/ac".toList u2 []) =
      some ⟨c1tree u1 u2, 0, [], []⟩ ∧
    serveR ⟨c1tree u1 u2, 0, [], []⟩ "GET" "/ab".toList =
      some (.ok ⟨"/ab".toList, [], [], some [u1], [], -1⟩) ∧
    serveR ⟨c1tree u1 u2, 0, [], []⟩ "GET" "/ac".toList =
      some (.ok ⟨"/ac".toList, [], [], some [u2], [], -1⟩) :=
  ⟨rfl, rfl, rfl⟩

/-- C2: resolving GET /users/42 against the route GET /users/:id yields the
registered chain, paramNames equal to the singleton id and the value 42
bound into the first parameter slot; a parameter segment followed by a
further static segment (route /users/:id/books, request /users/42/books)
binds exactly the characters up to, but not including, the next slash. -/
theorem c2_param_binding (u : Handler) :
    (routerAdd emptyRouter "GET" "/users/:id".toList u []).map
        (fun r => serveR r "GET" "/users/42".toList) =
      some (some (.ok ⟨"/users/:id".toList, ["id".toList], ["42".toList], some [u], [], -1⟩)) ∧
    (routerAdd emptyRouter "GET" "/users/:id/books".toList u []).map
        (fun r => serveR r "GET" "/users/42/books".toList) =
      some (some (.ok ⟨"/users/:id/books".toList, ["id".toList], ["42".toList],
        some [u], [], -1⟩)) :=
  ⟨rfl, rfl⟩

/-- C3: after resolving GET /users/42 against GET /users/:id the value 42
is bound positionally in pvalues, yet context.Param on the name id returns
the empty string: the params map it reads is never populated anywhere in
the sources, so by-name parameter lookup always yields the zero value. -/
theorem c3_param_lookup_returns_empty :
    (routerAdd emptyRouter "GET" "/users/:id".toList (.user 1) []).map
        (fun r => serveR r "GET" "/users/42".toList) = some (some (.ok c3ctx)) ∧
    c3ctx.pvalues = ["42".toList] ∧
    c3ctx.pnames = ["id".toList] ∧
    ctxParam c3ctx "id".toList = [] :=
  ⟨rfl, rfl, rfl, rfl⟩

/-- C4: resolving GET /static/a/b/c.png against the route GET /static/*
binds the catch-all parameter to the single value a/b/c.png — the entire
remaining search string, slashes included — and resolves to the registered
chain with paramNames equal to the single star name. -/
theorem c4_catch_all (u : Handler) :
    (routerAdd emptyRouter "GET" "/static/*".toList u []).map
        (fun r => serveR r "GET" "/static/a/b/c.png".toList) =
      some (some (.ok ⟨"/static/*".toList, ["*".toList], ["a/b/c.png".toList],
        some [u], [], -1⟩)) :=
  rfl

/-- C5: with both the literal /users/new and the parameterized /users/:id
registered under GET, resolving GET /users/new selects the literal route's
chain, reports no parameter names and leaves the parameter slot unbound. -/
theorem c5_static_over_param (u1 u2 : Handler) :
    ((routerAdd emptyRouter "GET" "/users/new".toList u1 []).bind
        (fun r => routerAdd r "GET" "/users/:id".toList u2 [])).map
        (fun r => serveR r "GET" "/users/new".toList) =
      some (some (.ok ⟨"/users/new".toList, [], [[]], some [u1], [], -1⟩)) :=
  rfl

/-- C6 counterexample: with POST /x/ and GET /x/* registered, GET /x/
matches the root node, whose table has a POST entry and no GET entry, yet
the context is populated with the catch-all child's chain — neither the
method-not-allowed nor the not-found chain — because the End block digs
into a catch-all child even after installing the method-not-allowed
default. -/
theorem c6_counterexample :
    ((routerAdd emptyRouter "POST" "/x/".toList (.user 1) []).bind
        (fun r => routerAdd r "GET" "/x/*".toList (.user 2) [])) = some c6router ∧
    mhFind "POST" (nodeMh c6router.tree) = some [Handler.user 1] ∧
    mhFind "GET" (nodeMh c6router.tree) = none ∧
    serveR c6router "GET" "/x/".toList = some (.ok c6ctx) ∧
    c6ctx.handlers ≠ some [Handler.methodNotAllowed] ∧
    c6ctx.handlers ≠ some [Handler.notFound] :=
  ⟨rfl, rfl, rfl, rfl, by decide, by decide⟩

/-- C6 amended: when find's End phase receives a node with no chain for the
requested method, the context is populated with the method-not-allowed
chain if the node's table has an entry for some other method — unless the
node has a catch-all child one level below, in which case resolution
continues into that child (its chain when it has one for the method); and
with the not-found chain when the table is empty for every method and no
catch-all child exists. -/
theorem c6_amended_resolution (method : String) (c1 : Ctx) (n : Node) (pv : List RPath) :
    (mhFind method (nodeMh n) = none →
     (methodsList.any fun m => (mhFind m (nodeMh n)).isSome) = true →
     findChildByKind (nodeChildren n) .akind = none →
     endPhase method c1 n pv =
       .fin { c1 with handlers := some [Handler.methodNotAllowed],
                      path := nodePpath n, pnames := nodePnames n, pvalues := pv }) ∧
    (mhFind method (nodeMh n) = none →
     (methodsList.any fun m => (mhFind m (nodeMh n)).isSome) = false →
     findChildByKind (nodeChildren n) .akind = none →
     endPhase method c1 n pv =
       .fin { c1 with handlers := some [Handler.notFound],
                      path := nodePpath n, pnames := nodePnames n, pvalues := pv }) ∧
    (∀ c hc, mhFind method (nodeMh n) = none →
     findChildByKind (nodeChildren n) .akind = some c →
     mhFind method (nodeMh c) = some hc →
     0 < (nodePnames c).length →
     (nodePnames c).length ≤ pv.length →
     endPhase method c1 n pv =
       .fin { c1 with handlers := some hc, path := nodePpath c, pnames := nodePnames c,
                      pvalues := pv.set ((nodePnames c).length - 1) [] }) := by
  refine ⟨?_, ?_, ?_⟩
  · intro h0 hany hak
    simp [endPhase, h0, hak, checkMethodNotAllowed, hany]
  · intro h0 hany hak
    simp [endPhase, h0, hak, checkMethodNotAllowed, hany]
  · intro c hc h0 hak hcf hlen hle
    have hne : ¬ (nodePnames c).length = 0 := by omega
    have hlt : (nodePnames c).length - 1 < pv.length := by omega
    simp [endPhase, h0, hak, hcf, hne, setAt, hlt]

/-- C6 amended, witness: a node holding only a POST entry resolves a GET
request to the method-not-allowed chain when it has no catch-all child. -/
theorem c6_amended_resolution_w :
    endPhase "GET" (newCtx 0) c6wnode [] =
      .fin ⟨['/'], [], [], some [Handler.methodNotAllowed], [], 0⟩ :=
  (c6_amended_resolution "GET" (newCtx 0) c6wnode []).1 rfl rfl rfl

/-- C7: with GET /ab:x/t and GET /:y registered (one reserved parameter
slot), resolving GET /abQ/z binds one value, dead-ends, backtracks to the
root's saved parameter alternative, and then loops forever: the exhausted
slot guard at the Param label jumps back to the loop head, whose prefix
mismatch restores the same alternative again, so find never terminates —
it neither writes out of bounds nor installs the not-found chain. -/
theorem c7_find_nonterminating :
    (((routerAdd emptyRouter "GET" "/ab:x/t".toList (.user 1) []).bind
        (fun r => routerAdd r "GET" "/:y".toList (.user 2) [])) = some c7router) ∧
    ∀ fuel : Nat,
      runFind fuel "GET" c7router.tree "/abQ/z".toList
        (resetCtx (newCtx c7router.maxParam)) = none := by
  refine ⟨rfl, ?_⟩
  intro fuel
  have key : findLoop "GET" c7ctx fuel .top c7start = none := by
    cases hfl : findLoop "GET" c7ctx fuel .top c7start with
    | none => rfl
    | some o =>
      exfalso
      have h5 : findLoop "GET" c7ctx (fuel + 5) .top c7start = some o :=
        findLoop_mono_le "GET" c7ctx fuel (fuel + 5) (by omega) _ _ _ hfl
      rw [c7reach fuel, (c7cycNone fuel).1] at h5
      exact Option.noConfusion h5
  have hre : runFind fuel "GET" c7router.tree "/abQ/z".toList
      (resetCtx (newCtx c7router.maxParam)) =
      (match findLoop "GET" c7ctx fuel .top c7start with
        | none => (none : Option RunRes)
        | some (.fin c2) => some (.ok c2)
        | some (.notFound pv) => some (.ok { c7ctx with pvalues := pv })
        | some .panik => some .panik) := rfl
  rw [hre, key]

/-- C8: route registration returns abnormally (the modelled panic, none)
exactly when the path pattern is empty or the method token is not a known
HTTP verb; on such inputs no router state is produced, and for a non-empty
path with a known verb registration always returns normally. -/
theorem c8_registration_fatal_iff (r : Router) (m : String) (p : RPath)
    (h : Handler) (hs : Chain) :
    routerAdd r m p h hs = none ↔ (p = [] ∨ m ∉ methodsList) := by
  constructor
  · intro hnone
    by_cases hp : p = []
    · exact Or.inl hp
    · right
      intro hm
      have hsome := addLoop_some m hm (r.middlewares ++ hs ++ [h] ++ r.after)
        (if p.headD nulChar = '/' then p else '/' :: p)
        (if p.headD nulChar = '/' then p else '/' :: p).length
        (if p.headD nulChar = '/' then p else '/' :: p) (Nat.le_refl _) r [] []
      have heq : routerAdd r m p h hs =
          addLoop m (r.middlewares ++ hs ++ [h] ++ r.after)
            (if p.headD nulChar = '/' then p else '/' :: p)
            (if p.headD nulChar = '/' then p else '/' :: p).length
            r [] (if p.headD nulChar = '/' then p else '/' :: p) [] := by
        unfold routerAdd
        rw [if_neg hp]
      rw [heq] at hnone
      rw [hnone] at hsome
      simp at hsome
  · intro hor
    by_cases hp : p = []
    · subst hp
      unfold routerAdd
      rw [if_pos rfl]
    · rcases hor with hpe | hm
      · exact absurd hpe hp
      · have heq : routerAdd r m p h hs =
            addLoop m (r.middlewares ++ hs ++ [h] ++ r.after)
              (if p.headD nulChar = '/' then p else '/' :: p)
              (if p.headD nulChar = '/' then p else '/' :: p).length
              r [] (if p.headD nulChar = '/' then p else '/' :: p) [] := by
          unfold routerAdd
          rw [if_neg hp]
        rw [heq]
        exact addLoop_none m hm _ _ _ _ _ _ _

/-- C9: for every known HTTP method and arbitrary handlers, registering the
same pattern twice leaves the router exactly as if only the second
registration had happened — for the literal pattern /ab under each of the
nine methods and for the parameterized pattern /u/:id — and subsequent
resolution returns the second chain. -/
theorem c9_last_write_wins (i : Fin 9) (u1 u2 : Handler) :
    ((routerAdd emptyRouter (methodsList.getD i.1 "") "/ab".toList u1 []).bind
        (fun r => routerAdd r (methodsList.getD i.1 "") "/ab".toList u2 [])) =
      routerAdd emptyRouter (methodsList.getD i.1 "") "/ab".toList u2 [] ∧
    (routerAdd emptyRouter (methodsList.getD i.1 "") "/ab".toList u2 []).map
        (fun r => serveR r (methodsList.getD i.1 "") "/ab".toList) =
      some (some (.ok ⟨"/ab".toList, [], [], some [u2], [], -1⟩)) ∧
    ((routerAdd emptyRouter "GET" "/u/:id".toList u1 []).bind
        (fun r => routerAdd r "GET" "/u/:id".toList u2 [])) =
      routerAdd emptyRouter "GET" "/u/:id".toList u2 [] ∧
    (routerAdd emptyRouter "GET" "/u/:id".toList u2 []).map
        (fun r => serveR r "GET" "/u/7".toList) =
      some (some (.ok ⟨"/u/:id".toList, ["id".toList], ["7".toList], some [u2], [], -1⟩)) := by
  fin_cases i <;> exact ⟨rfl, rfl, rfl, rfl⟩

/-- C10: a route registered through Router.add stores the concatenation of
the router-wide middlewares, the route-level middlewares, the handler and
the after-handlers, in that order, as its chain, and successive
context.Next calls starting from the reset sentinel invoke exactly that
sequence in order. -/
theorem c10_chain_and_dispatch :
    (∀ (mws af hs : Chain) (h : Handler),
      (routerAdd ⟨emptyRouter.tree, 0, mws, af⟩ "GET" "/p".toList h hs).map
          (fun r => serveR r "GET" "/p".toList) =
        some (some (.ok ⟨"/p".toList, [], [], some (mws ++ hs ++ [h] ++ af), [], -1⟩))) ∧
    (∀ chain : Chain,
      collectNext chain.length
          { newCtx 0 with handlers := some chain, nextIndex := -1 } =
        chain.map some) := by
  constructor
  · intro mws af hs h
    rfl
  · intro chain
    have h0 := collectNext_spec chain [] [] [] [] []
    simpa using h0

end Chef
